import Mathlib

/-!
Verification development for the damfc disassembly job-shop simulation
(pre-shop pool, LUMS COR order release control, workstation scheduling).

The definitions below are a shallow embedding of the Python source in
src/damfc.  Python floats are modelled as rationals, Python dicts as
association lists with update-in-place / append-if-new semantics, and
raised exceptions as explicit error values.  Tasks are identified by
their names, which are unique within an order.
-/

namespace DAMFC

/-- Tolerance 1e-10 used by the source when clipping indirect loads
(workstation.py line 75, preShopPool.py line 209). -/
def tol : ℚ := 1 / 10 ^ 10

/-- Scalar fields of a task (preShopPool.py, class Task). -/
structure TaskData where
  task_name : String
  process_time : ℚ
  produced_component : Option String
  revenue : ℚ
  station : String
  assigned_station : Option String
  parent_task : Option String
  depth : ℤ
  planned_start_time : Option ℚ
deriving DecidableEq

/-- A task together with its next_steps subtree (preShopPool.py, class Task). -/
inductive Task : Type where
  | mk (data : TaskData) (next_steps : List Task)

/-- Scalar data of a task node. -/
def Task.data : Task → TaskData
  | .mk d _ => d

/-- Immediate successors of a task node. -/
def Task.next_steps : Task → List Task
  | .mk _ c => c

def Task.task_name (t : Task) : String := t.data.task_name

def Task.process_time (t : Task) : ℚ := t.data.process_time

def Task.station (t : Task) : String := t.data.station

def Task.assigned_station (t : Task) : Option String := t.data.assigned_station

def Task.parent_task (t : Task) : Option String := t.data.parent_task

def Task.produced_component (t : Task) : Option String := t.data.produced_component

def Task.revenue (t : Task) : ℚ := t.data.revenue

def Task.depth (t : Task) : ℤ := t.data.depth

def Task.planned_start_time (t : Task) : Option ℚ := t.data.planned_start_time

/-- Task.calculate_load (preShopPool.py lines 60-67): process_time / depth. -/
def Task.calculate_load (t : Task) : ℚ := t.process_time / (t.depth : ℚ)

/-- The flatten helper of Order.create_flat_plan (preShopPool.py lines
121-135): pre-order flattening of the task forest. -/
def flattenTasks : List Task → List Task
  | [] => []
  | .mk d c :: ts => .mk d c :: (flattenTasks c ++ flattenTasks ts)

/-- Lookup in a Python dict modelled as an association list. -/
def dictGet? {α : Type} (m : List (String × α)) (k : String) : Option α :=
  (m.find? (fun p => p.1 = k)).map Prod.snd

/-- Python dict assignment d[k] = v: overwrite in place if the key is
present, append otherwise. -/
def dictInsert {α : Type} (m : List (String × α)) (k : String) (v : α) :
    List (String × α) :=
  if m.any (fun p => p.1 = k) then
    m.map (fun p => if p.1 = k then (k, v) else p)
  else m ++ [(k, v)]

/-- The nested load_contributions dict: station id to task name to
a pair (load, depth) (preShopPool.py line 148). -/
abbrev LoadContributions := List (String × List (String × (ℚ × ℤ)))

/-- Order state (preShopPool.py, class Order).  completed_tasks and
ready_tasks hold task names; the task objects live in process_plan. -/
structure Order where
  order_id : String
  arrival_time : ℚ
  due_date : ℚ
  priority : ℤ
  process_plan : List Task
  finish_time : ℚ
  completed_tasks : List String
  ready_tasks : List String
  load_contributions : LoadContributions

/-- Order.flat_plan: the pre-order flattening computed once at
construction (preShopPool.py line 100). -/
def Order.flat_plan (o : Order) : List Task := flattenTasks o.process_plan

/-- Order.total_process_time (preShopPool.py lines 236-244). -/
def Order.total_process_time (o : Order) : ℚ :=
  (o.flat_plan.map Task.process_time).sum

/-- Order.is_finished (preShopPool.py lines 287-296): compare the set of
completed task names with the set of task names of the flat plan. -/
def Order.is_finished (o : Order) : Bool :=
  decide (o.completed_tasks.toFinset = (o.flat_plan.map Task.task_name).toFinset)

/-- One step of Order.compute_load_contributions (preShopPool.py lines
138-148): for a task of positive depth, ensure the station key exists and
store the entry for the task name.  A task without an assigned station
makes the source fail (attribute access on None), modelled as none. -/
def clcStep (lc : LoadContributions) (t : Task) : Option LoadContributions :=
  if t.depth > 0 then
    match t.assigned_station with
    | none => none
    | some sid =>
      let load := t.calculate_load
      let lc1 := if (dictGet? lc sid).isSome then lc else dictInsert lc sid []
      let inner := (dictGet? lc1 sid).getD []
      some (dictInsert lc1 sid (dictInsert inner t.task_name (load, t.depth)))
  else some lc

/-- Order.compute_load_contributions (preShopPool.py lines 138-148).
Note that the source updates the existing dict; it does not clear it. -/
def Order.compute_load_contributions (o : Order) : Option Order :=
  (o.flat_plan.foldlM clcStep o.load_contributions).map
    (fun lc => { o with load_contributions := lc })

/-- Order.estimate_load_contribution (preShopPool.py lines 151-166): add
every recorded contribution of the order onto a copy of the given station
loads.  A contribution whose station key is absent raises KeyError in the
source, modelled as none. -/
def Order.estimate_load_contribution (o : Order)
    (station_current_loads : List (String × ℚ)) : Option (List (String × ℚ)) :=
  o.load_contributions.foldlM
    (fun est p =>
      p.2.foldlM
        (fun est2 q =>
          match dictGet? est2 p.1 with
          | none => none
          | some v => some (dictInsert est2 p.1 (v + q.2.1)))
        est)
    station_current_loads

/-- An entry of a workstation task queue: the source stores (order, task)
object pairs; the embedding snapshots the fields the station reads
(identifiers, process time, the priority of the order and the planned
start time set by add_task). -/
structure QEntry where
  order_id : String
  task_name : String
  process_time : ℚ
  priority : ℤ
  planned_start_time : ℚ
deriving DecidableEq

/-- Workstation state (workstation.py, class Workstation).  The one-shot
idle event is modelled by its triggered flag. -/
structure Workstation where
  id : String
  type_id : String
  indirect_load : ℚ
  ws_tasks_queue : List QEntry
  idle : Bool
  idle_event_triggered : Bool
  total_idle_time : ℚ
  total_work_time : ℚ

/-- Workstation.direct_load (workstation.py lines 41-46). -/
def Workstation.direct_load (ws : Workstation) : ℚ :=
  (ws.ws_tasks_queue.map QEntry.process_time).sum

/-- Workstation.current_load (workstation.py lines 49-54). -/
def Workstation.current_load (ws : Workstation) : ℚ :=
  ws.direct_load + ws.indirect_load

mutual

/-- ORControlSystem.calculate_most_time_consuming_branch
(orderReleaseControl.py lines 328-351): total process time of the longest
branch below (and including) the task, with the task count of that branch. -/
def calculate_most_time_consuming_branch : Task → ℚ × ℕ
  | .mk d [] => (d.process_time, 1)
  | .mk d (c :: cs) =>
    let best := mctbFold (calculate_most_time_consuming_branch c) cs
    (d.process_time + best.1, 1 + best.2)

/-- The Python max over child results with key x[0]: keep the first
maximum, replace only on a strictly larger key. -/
def mctbFold : ℚ × ℕ → List Task → ℚ × ℕ
  | acc, [] => acc
  | acc, c :: cs =>
    let r := calculate_most_time_consuming_branch c
    mctbFold (if r.1 > acc.1 then r else acc) cs

end

/-- ORControlSystem.calculate_planned_start_time (orderReleaseControl.py
lines 313-326); k is app_config.PLANNED_START_TIME_ALLOWANCE. -/
def calculate_planned_start_time (due_date : ℚ) (k : ℚ) (t : Task) : ℚ :=
  let r := calculate_most_time_consuming_branch t
  due_date - r.1 - k * (r.2 : ℚ)

/-- The clip applied after decrementing an indirect load (workstation.py
lines 75-76, preShopPool.py lines 209-210): a value strictly inside
(-1e-10, 0) is replaced by 0. -/
def clipIndirect (x : ℚ) : ℚ := if x < 0 ∧ |x| < tol then 0 else x

/-- Exceptions raised by the embedded operations. -/
inductive SimError where
  | negativeIndirectLoad
  | taskNotInReadyTasks
  | taskNotFound
  | noAssignedStation
  | noSuitableStation
  | missingStation
deriving DecidableEq

/-- Result of Workstation.add_task: the station and order after the call
together with the raised exception, if any.  As in Python, mutations made
before the raise survive it. -/
structure AddTaskResult where
  ws : Workstation
  order : Order
  err : Option SimError

/-- Workstation.add_task (workstation.py lines 64-88).  Order of effects
as in the source: compute the planned start time, decrement indirect_load
by process_time / depth, clip a result strictly inside (-1e-10, 0) to 0,
raise on a result still negative, remove the task from ready_tasks
(raising if absent), append to the queue, fire and re-create idle_event
when the station is idle. -/
def Workstation.add_task (ws : Workstation) (o : Order) (t : Task) (k : ℚ) :
    AddTaskResult :=
  let pst := calculate_planned_start_time o.due_date k t
  let load := t.process_time / (t.depth : ℚ)
  let v := clipIndirect (ws.indirect_load - load)
  if v < 0 then
    { ws := { ws with indirect_load := v }, order := o,
      err := some .negativeIndirectLoad }
  else if t.task_name ∈ o.ready_tasks then
    let o1 := { o with ready_tasks := o.ready_tasks.erase t.task_name }
    let entry : QEntry :=
      { order_id := o.order_id, task_name := t.task_name,
        process_time := t.process_time, priority := o.priority,
        planned_start_time := pst }
    { ws := { ws with
                indirect_load := v,
                ws_tasks_queue := ws.ws_tasks_queue ++ [entry],
                idle_event_triggered :=
                  if ws.idle then false else ws.idle_event_triggered },
      order := o1, err := none }
  else
    { ws := { ws with indirect_load := v }, order := o,
      err := some .taskNotInReadyTasks }

/-- Find a workstation by id in the station list (station ids are unique
in any configuration built by main.py / test.py). -/
def findStation (stations : List Workstation) (sid : String) : Option Workstation :=
  stations.find? (fun ws => ws.id = sid)

/-- Replace the state of the workstation with the given id; the Python
source mutates the unique station object in place. -/
def updateStation (stations : List Workstation) (sid : String)
    (f : Workstation → Workstation) : List Workstation :=
  stations.map (fun ws => if ws.id = sid then f ws else ws)

/-- The load update for one child task inside update_childs_indrect_load
(preShopPool.py lines 204-217): subtract the child's current load from
its station's indirect_load, clip a result strictly inside (-1e-10, 0) to
0, raise (none) if still negative, then add the load recomputed at depth
decremented by one.  Returns the intermediate value after the decrement
and clip together with the final stored value. -/
def update_child_indirect_load (indirect child_pt : ℚ) (child_depth : ℤ) :
    Option (ℚ × ℚ) :=
  let old_load := child_pt / (child_depth : ℚ)
  let v := clipIndirect (indirect - old_load)
  if v < 0 then none
  else some (v, v + child_pt / ((child_depth - 1 : ℤ) : ℚ))

/-- The recursion of update_childs_indrect_load (preShopPool.py lines
203-232) over a list of child tasks: update each child's station load and
depth, then recurse into its own children before moving to the next
sibling.  Returns the updated stations and the updated subtrees. -/
def update_childs_indrect_load (stations : List Workstation) :
    List Task → Option (List Workstation × List Task)
  | [] => some (stations, [])
  | .mk d ch :: cs =>
    match d.assigned_station with
    | none => none
    | some sid =>
      match findStation stations sid with
      | none => none
      | some ws =>
        match update_child_indirect_load ws.indirect_load d.process_time d.depth with
        | none => none
        | some r =>
          let stations1 := updateStation stations sid
            (fun w => { w with indirect_load := r.2 })
          match update_childs_indrect_load stations1 ch with
          | none => none
          | some r2 =>
            match update_childs_indrect_load r2.1 cs with
            | none => none
            | some r3 =>
              some (r3.1, .mk { d with depth := d.depth - 1 } r2.2 :: r3.2)

mutual

/-- Apply the depth and load mutations of Order.update_load_contribution
to the (unique) task with the given name inside a task tree: set its
depth to -1 and run update_childs_indrect_load on its children
(preShopPool.py lines 198-232). -/
def ulcTask (stations : List Workstation) (name : String) :
    Task → Option (Task × List Workstation)
  | .mk d ch =>
    if d.task_name = name then
      (update_childs_indrect_load stations ch).map
        (fun r => (.mk { d with depth := -1 } r.2, r.1))
    else
      (ulcForest stations name ch).map (fun r => (.mk d r.1, r.2))

/-- ulcTask lifted to a forest of tasks. -/
def ulcForest (stations : List Workstation) (name : String) :
    List Task → Option (List Task × List Workstation)
  | [] => some ([], stations)
  | t :: ts =>
    match ulcTask stations name t with
    | none => none
    | some r =>
      (ulcForest r.2 name ts).map (fun r2 => (r.1 :: r2.1, r2.2))

end

/-- Order.update_load_contribution (preShopPool.py lines 182-233): find
the completed task (raise if absent or unassigned), set its depth to -1
and its recorded contribution to (0, -1), update the children's station
loads and depths, and recompute load_contributions over the updated tree. -/
def Order.update_load_contribution (o : Order) (stations : List Workstation)
    (completed_task_name : String) : Option (Order × List Workstation) :=
  match o.flat_plan.find? (fun t => t.task_name = completed_task_name) with
  | none => none
  | some t =>
    match t.assigned_station with
    | none => none
    | some sid =>
      let lc1 :=
        match dictGet? o.load_contributions sid with
        | none => o.load_contributions
        | some inner =>
          if (dictGet? inner completed_task_name).isSome then
            dictInsert o.load_contributions sid
              (dictInsert inner completed_task_name (0, -1))
          else o.load_contributions
      match ulcForest stations completed_task_name o.process_plan with
      | none => none
      | some r =>
        ({ o with process_plan := r.1, load_contributions := lc1
         } : Order).compute_load_contributions.map (fun o2 => (o2, r.2))

/-- Workstation.mark_task_as_completed (workstation.py lines 91-104): add
the task to the completed set, append its children to ready_tasks, and
set finish_time to the current simulated time when the order is finished. -/
def mark_task_as_completed (o : Order) (t : Task) (now : ℚ) : Order :=
  let o1 := { o with
    completed_tasks :=
      if t.task_name ∈ o.completed_tasks then o.completed_tasks
      else o.completed_tasks ++ [t.task_name],
    ready_tasks := o.ready_tasks ++ t.next_steps.map Task.task_name }
  if o1.is_finished then { o1 with finish_time := now } else o1

/-- Result of Workstation.remove_task: the not-in-queue branch only logs
(task name, order id, station id) and returns normally. -/
structure RemoveTaskResult where
  stations : List Workstation
  order : Order
  err : Option SimError
  logged_not_in_queue : Option (String × String × String)

/-- Workstation.remove_task (workstation.py lines 107-118): when the
(order, task) pair is in the queue, mark it completed, erase it from the
queue and run the completion callback; otherwise log an error message and
return with every state component unchanged. -/
def remove_task (stations : List Workstation) (sid : String) (o : Order)
    (t : Task) (now : ℚ) : RemoveTaskResult :=
  match findStation stations sid with
  | none => ⟨stations, o, some .missingStation, none⟩
  | some ws =>
    if ws.ws_tasks_queue.any
        (fun e => e.order_id = o.order_id ∧ e.task_name = t.task_name) then
      let o1 := mark_task_as_completed o t now
      let stations1 := updateStation stations sid (fun w =>
        { w with ws_tasks_queue := w.ws_tasks_queue.eraseP (fun e =>
            decide (e.order_id = o.order_id ∧ e.task_name = t.task_name)) })
      match o1.update_load_contribution stations1 t.task_name with
      | none => ⟨stations1, o1, some .taskNotFound, none⟩
      | some r => ⟨r.2, r.1, none, none⟩
    else
      ⟨stations, o, none, some (t.task_name, o.order_id, sid)⟩

/-- The dispatch loop shared by ORControlSystem.release_order
(orderReleaseControl.py lines 292-304) and Workstation.process_task
(workstation.py lines 208-218): iterate over a snapshot of the ready task
names and call add_task on each task's assigned station.  A task without
an assigned station makes both sources fail (attribute access on None in
the log call); an exception from add_task propagates, keeping the
mutations made so far. -/
def dispatch_ready_tasks (k : ℚ) :
    List String → List Workstation → Order →
    List Workstation × Order × Option SimError
  | [], stations, o => (stations, o, none)
  | n :: ns, stations, o =>
    match o.flat_plan.find? (fun t => t.task_name = n) with
    | none => (stations, o, some .taskNotFound)
    | some t =>
      match t.assigned_station with
      | none => (stations, o, some .noAssignedStation)
      | some csid =>
        match findStation stations csid with
        | none => (stations, o, some .missingStation)
        | some cws =>
          let r := cws.add_task o t k
          let stations1 := updateStation stations csid (fun _ => r.ws)
          match r.err with
          | some e => (stations1, r.order, some e)
          | none => dispatch_ready_tasks k ns stations1 r.order

/-- Result of Workstation.process_task.  The misassignment branch only
logs (task name, order id) and returns with the state unchanged. -/
structure ProcessTaskResult where
  stations : List Workstation
  order : Order
  warehouse : List String
  err : Option SimError
  logged_misassigned : Option (String × String)

/-- Workstation.process_task (workstation.py lines 173-218), with the
simulated waiting collapsed: when the task's assigned station differs
from the executing station the source logs an error and falls through
without processing; otherwise it works for process_time time units,
deposits the produced component, removes the task from the queue
(completion callback included) and dispatches the now-ready tasks. -/
def process_task (stations : List Workstation) (sid : String) (o : Order)
    (t : Task) (warehouse : List String) (now k : ℚ) : ProcessTaskResult :=
  match t.assigned_station with
  | none => ⟨stations, o, warehouse, some .noAssignedStation, none⟩
  | some required_ws_id =>
    if required_ws_id ≠ sid then
      ⟨stations, o, warehouse, none, some (t.task_name, o.order_id)⟩
    else
      let done := now + t.process_time
      let stations1 := updateStation stations sid (fun w =>
        { w with total_work_time := w.total_work_time + t.process_time })
      let warehouse1 :=
        match t.produced_component with
        | some c => warehouse ++ [c]
        | none => warehouse
      let r := remove_task stations1 sid o t done
      match r.err with
      | some e => ⟨r.stations, r.order, warehouse1, some e, none⟩
      | none =>
        let d := dispatch_ready_tasks k (r.order.ready_tasks) r.stations r.order
        ⟨d.1, d.2.1, warehouse1, d.2.2, none⟩

/-- Comparison by a two-component rational key, lexicographically: the
ordering used by the Python tuple sort keys. -/
def keyLe {α : Type} (f : α → ℚ × ℚ) (a b : α) : Prop :=
  (f a).1 < (f b).1 ∨ ((f a).1 = (f b).1 ∧ (f a).2 ≤ (f b).2)

instance {α : Type} (f : α → ℚ × ℚ) : DecidableRel (keyLe f) := fun _ _ => by
  unfold keyLe; infer_instance

instance {α : Type} (f : α → ℚ × ℚ) : IsTotal α (keyLe f) where
  total a b := by
    rcases lt_trichotomy (f a).1 (f b).1 with h | h | h
    · exact Or.inl (Or.inl h)
    · rcases le_total (f a).2 (f b).2 with h2 | h2
      · exact Or.inl (Or.inr ⟨h, h2⟩)
      · exact Or.inr (Or.inr ⟨h.symm, h2⟩)
    · exact Or.inr (Or.inl h)

instance {α : Type} (f : α → ℚ × ℚ) : IsTrans α (keyLe f) where
  trans a b c hab hbc := by
    rcases hab with h | ⟨h1, h2⟩
    · rcases hbc with h' | ⟨h1', h2'⟩
      · exact Or.inl (h.trans h')
      · exact Or.inl (h1' ▸ h)
    · rcases hbc with h' | ⟨h1', h2'⟩
      · exact Or.inl (h1 ▸ h')
      · exact Or.inr ⟨h1.trans h1', h2.trans h2'⟩

/-- Pool sequencing key for FCFS: (priority, arrival_time). -/
def fcfsOrderKey (o : Order) : ℚ × ℚ := ((o.priority : ℚ), o.arrival_time)

/-- Pool sequencing key for EDD: (priority, due_date). -/
def eddOrderKey (o : Order) : ℚ × ℚ := ((o.priority : ℚ), o.due_date)

/-- Pool sequencing key for CR: (priority, (due_date - now) / total
process time). -/
def crOrderKey (now : ℚ) (o : Order) : ℚ × ℚ :=
  ((o.priority : ℚ), (o.due_date - now) / o.total_process_time)

/-- ORControlSystem.sort_orders (orderReleaseControl.py lines 74-99).
Python's list.sort is stable, as is insertionSort with a total preorder.
The boolean records whether the invalid-rule error was logged; on an
invalid rule the source logs, prints and leaves the list unsorted. -/
def sort_orders (rule : String) (now : ℚ) (order_list : List Order) :
    List Order × Bool :=
  if order_list.length > 0 then
    if rule = "FCFS" then (order_list.insertionSort (keyLe fcfsOrderKey), false)
    else if rule = "EDD" then (order_list.insertionSort (keyLe eddOrderKey), false)
    else if rule = "CR" then
      (order_list.insertionSort (keyLe (crOrderKey now)), false)
    else (order_list, true)
  else (order_list, false)

/-- Dispatching key for FCFS: the source sorts by the order's priority
alone (a stable one-component sort, modelled with constant second key). -/
def fcfsTaskKey (e : QEntry) : ℚ × ℚ := ((e.priority : ℚ), 0)

/-- Dispatching key for SPT: (priority, process_time). -/
def sptTaskKey (e : QEntry) : ℚ × ℚ := ((e.priority : ℚ), e.process_time)

/-- Dispatching key for PST: (priority, planned_start_time). -/
def pstTaskKey (e : QEntry) : ℚ × ℚ := ((e.priority : ℚ), e.planned_start_time)

/-- Workstation.sort_tasks (workstation.py lines 120-139); the
dispatching rule is the station's configured dispatching_rule field.  The
boolean records whether the invalid-rule error was logged; on an invalid
rule the source logs, prints and leaves the queue unsorted. -/
def Workstation.sort_tasks (ws : Workstation) (dispatching_rule : String) :
    Workstation × Bool :=
  if dispatching_rule = "FCFS" then
    ({ ws with ws_tasks_queue := ws.ws_tasks_queue.insertionSort (keyLe fcfsTaskKey) },
     false)
  else if dispatching_rule = "SPT" then
    ({ ws with ws_tasks_queue := ws.ws_tasks_queue.insertionSort (keyLe sptTaskKey) },
     false)
  else if dispatching_rule = "PST" then
    ({ ws with ws_tasks_queue := ws.ws_tasks_queue.insertionSort (keyLe pstTaskKey) },
     false)
  else (ws, true)

/-- ORControlSystem.select_station (orderReleaseControl.py lines 68-72):
the workstation with minimal current_load; Python's min keeps the first
minimum and raises on an empty sequence (none). -/
def select_station : List Workstation → Option Workstation
  | [] => none
  | w :: rest =>
    some (rest.foldl
      (fun acc x => if x.current_load < acc.current_load then x else acc) w)

mutual

/-- The station assignment loop of ORControlSystem.set_detailed_routing
(orderReleaseControl.py lines 224-239) on one task tree: a task whose
station type equals the triggered station's type gets the triggered
station, any other task the least-loaded station whose id starts with the
task's station type. -/
def assign_stations (station_list : List Workstation)
    (triggered : Option Workstation) : Task → Option Task
  | .mk d ch =>
    let least := (select_station (station_list.filter
        (fun st => st.id.startsWith d.station))).map Workstation.id
    let asg : Option String :=
      match triggered with
      | some trig => if d.station = trig.type_id then some trig.id else least
      | none => least
    match asg with
    | none => none
    | some sid =>
      (assign_stations_forest station_list triggered ch).map
        (fun ch2 => .mk { d with assigned_station := some sid } ch2)

/-- assign_stations lifted to a forest of tasks. -/
def assign_stations_forest (station_list : List Workstation)
    (triggered : Option Workstation) : List Task → Option (List Task)
  | [] => some []
  | t :: ts =>
    match assign_stations station_list triggered t with
    | none => none
    | some t1 =>
      (assign_stations_forest station_list triggered ts).map (fun ts1 => t1 :: ts1)

end

/-- ORControlSystem.set_detailed_routing (orderReleaseControl.py lines
215-240): assign a workstation to every task of the flat plan, then call
compute_load_contributions. -/
def set_detailed_routing (station_list : List Workstation) (o : Order)
    (triggered : Option Workstation) : Option Order :=
  match assign_stations_forest station_list triggered o.process_plan with
  | none => none
  | some plan1 =>
    ({ o with process_plan := plan1 } : Order).compute_load_contributions

/-- ORControlSystem.get_next_ready_tasks (orderReleaseControl.py lines
242-248). -/
def get_next_ready_tasks (o : Order) : List String := o.ready_tasks

/-- Order.add_load_contribution (preShopPool.py lines 168-179): add every
recorded contribution onto the stations' indirect loads; a contribution
whose station is not in the list is silently skipped. -/
def Order.add_load_contribution (o : Order) (station_list : List Workstation) :
    List Workstation :=
  o.load_contributions.foldl
    (fun sts p =>
      if (findStation sts p.1).isSome then
        p.2.foldl
          (fun sts2 q => updateStation sts2 p.1
            (fun w => { w with indirect_load := w.indirect_load + q.2.1 }))
          sts
      else sts)
    station_list

/-- ORControlSystem.release_order (orderReleaseControl.py lines 285-304):
add the order's load contributions to the stations' indirect loads, then
dispatch every currently ready task to its assigned station. -/
def release_order (stations : List Workstation) (o : Order) (k : ℚ) :
    List Workstation × Order × Option SimError :=
  let stations1 := o.add_load_contribution stations
  dispatch_ready_tasks k (get_next_ready_tasks o) stations1 o

/-- ORControlSystem.can_release_order (orderReleaseControl.py lines
250-283): take the stations' current loads, add the order's recorded
contributions, and collect the stations whose estimated load strictly
exceeds the workload norm, paired with their current (pre-release) load. -/
def can_release_order (norm_load : ℚ) (station_list : List Workstation)
    (o : Order) : Option (Bool × List (String × ℚ)) :=
  let station_loads := station_list.map (fun ws => (ws.id, ws.current_load))
  (o.estimate_load_contribution station_loads).map (fun estimated_loads =>
    let overloaded_stations := station_list.filterMap (fun ws =>
      if (dictGet? estimated_loads ws.id).getD 0 > norm_load then
        some (ws.id, (dictGet? station_loads ws.id).getD 0)
      else none)
    if overloaded_stations.isEmpty then (true, ([] : List (String × ℚ)))
    else (false, overloaded_stations))

/-- The pre-shop pool and the stations: the shared state read and written
by ORControlSystem.continuous_release. -/
structure ShopState where
  order_list : List Order
  station_list : List Workstation

/-- Whether the order has a ready task whose station type equals the
given type (the inner loop of continuous_release, orderReleaseControl.py
lines 184-188). -/
def orderHasReadyFor (o : Order) (stype : String) : Bool :=
  (get_next_ready_tasks o).any (fun n =>
    match o.flat_plan.find? (fun t => t.task_name = n) with
    | some t => t.station = stype
    | none => false)

/-- ORControlSystem.continuous_release (orderReleaseControl.py lines
168-213): when the pool is non-empty, sort it, release the first order
with a ready task of the idle station's type (routing with the station as
the forced assignment), remove it from the pool and fire the station's
idle event; release at most one order.  Orders are removed from the pool
by identity in the source, modelled by their unique order_id.  An
exception inside routing or release propagates (none). -/
def continuous_release (rule : String) (now k : ℚ) (st : ShopState)
    (sid : String) : Option ShopState :=
  match findStation st.station_list sid with
  | none => none
  | some station =>
    if st.order_list.isEmpty then some st
    else
      let sorted := (sort_orders rule now st.order_list).1
      match sorted.find? (fun o => orderHasReadyFor o station.type_id) with
      | none => some { st with order_list := sorted }
      | some o =>
        match set_detailed_routing st.station_list o (some station) with
        | none => none
        | some o1 =>
          match release_order st.station_list o1 k with
          | (_, _, some _) => none
          | (stations1, _, none) =>
            let pool1 := sorted.eraseP (fun x => decide (x.order_id = o.order_id))
            let stations2 := updateStation stations1 sid
              (fun w => { w with idle_event_triggered := true })
            some { order_list := pool1, station_list := stations2 }

mutual

/-- All root-to-leaf branches of the subtree rooted at a task, each as
(total process time along the branch, number of tasks on the branch),
the branch including the task itself.  This is the reference notion the
planned-start-time computation is measured against. -/
def branches : Task → List (ℚ × ℕ)
  | .mk d ch =>
    match ch with
    | [] => [(d.process_time, 1)]
    | c :: cs =>
      (branchesList (c :: cs)).map (fun p => (d.process_time + p.1, p.2 + 1))

/-- Concatenation of the branches of a forest of tasks. -/
def branchesList : List Task → List (ℚ × ℕ)
  | [] => []
  | t :: ts => branches t ++ branchesList ts

end

/-- Modelled from the spec: the specification of routing says that
compute_load_contributions re-builds load_contributions from scratch over
the current flat_plan; this definition performs that rebuild, starting
from the empty mapping instead of the order's existing one. -/
def compute_load_contributions_from_scratch (o : Order) : Option Order :=
  (o.flat_plan.foldlM clcStep ([] : LoadContributions)).map
    (fun lc => { o with load_contributions := lc })

/-- Order.initialize_tasks (preShopPool.py lines 108-119): the root tasks
(those without a parent) of the flat plan, as ready task names. -/
def initialize_tasks (flat : List Task) : List String :=
  (flat.filter (fun t => t.parent_task = none)).map Task.task_name

/-- The Order constructor (preShopPool.py lines 80-105): finish_time 0,
no completed tasks, ready_tasks initialized to the roots, empty
load_contributions. -/
def Order.init (order_id : String) (arrival_time due_date : ℚ) (priority : ℤ)
    (process_plan : List Task) : Order :=
  { order_id := order_id, arrival_time := arrival_time, due_date := due_date,
    priority := priority, process_plan := process_plan, finish_time := 0,
    completed_tasks := [],
    ready_tasks := initialize_tasks (flattenTasks process_plan),
    load_contributions := [] }

/-- The total recorded load contribution of an lc mapping to one station:
the sum, over every group keyed by that station id, of the loads of its
task entries.  This is what the estimate fold adds to that station. -/
def contribOf (lc : LoadContributions) (k : String) : ℚ :=
  ((lc.filter (fun p => p.1 = k)).map (fun p => (p.2.map (fun q => q.2.1)).sum)).sum

/-- The order's recorded load contribution to one station. -/
def Order.contribution_to (o : Order) (k : String) : ℚ :=
  contribOf o.load_contributions k

/-- Helper to build concrete tasks for the witness instances. -/
def sampleTask (name : String) (pt : ℚ) (stype : String) (asg : Option String)
    (parent : Option String) (dep : ℤ) (ch : List Task) : Task :=
  .mk { task_name := name, process_time := pt, produced_component := none,
        revenue := 0, station := stype, assigned_station := asg,
        parent_task := parent, depth := dep, planned_start_time := none } ch

/-- Helper to build concrete workstations for the witness instances. -/
def sampleWs (id stype : String) (ind : ℚ) (q : List QEntry) : Workstation :=
  { id := id, type_id := stype, indirect_load := ind, ws_tasks_queue := q,
    idle := true, idle_event_triggered := false, total_idle_time := 0,
    total_work_time := 0 }

/-! ## Theorems -/

theorem tol_pos : 0 < tol := by norm_num [tol]

theorem clipIndirect_of_mem (x : ℚ) (h1 : -tol < x) (h2 : x < 0) :
    clipIndirect x = 0 := by
  unfold clipIndirect
  rw [if_pos ⟨h2, abs_lt.mpr ⟨h1, h2.trans tol_pos⟩⟩]

theorem clipIndirect_of_nonneg (x : ℚ) (h : 0 ≤ x) : clipIndirect x = x := by
  unfold clipIndirect
  rw [if_neg]
  rintro ⟨hx, -⟩
  linarith

theorem clipIndirect_of_le_neg_tol (x : ℚ) (h : x ≤ -tol) :
    clipIndirect x = x := by
  unfold clipIndirect
  rw [if_neg]
  rintro ⟨-, habs⟩
  have := (abs_lt.mp habs).1
  linarith

theorem clipIndirect_lt_zero_iff (x : ℚ) : clipIndirect x < 0 ↔ x ≤ -tol := by
  constructor
  · intro hlt
    by_contra hgt
    push_neg at hgt
    rcases le_or_lt 0 x with h0 | h0
    · rw [clipIndirect_of_nonneg x h0] at hlt
      linarith
    · rw [clipIndirect_of_mem x hgt h0] at hlt
      exact absurd hlt (lt_irrefl 0)
  · intro hle
    rw [clipIndirect_of_le_neg_tol x hle]
    linarith [tol_pos]

theorem clipIndirect_nonneg_of_not_le (x : ℚ) (h : ¬ x ≤ -tol) :
    0 ≤ clipIndirect x := by
  by_contra hneg
  push_neg at hneg
  exact h ((clipIndirect_lt_zero_iff x).mp hneg)

/-- C4: at both operations that decrement a station's indirect_load
(Workstation.add_task when a task enters the queue, and the per-child
update of the completion callback), the stored indirect_load is never
negative: a decremented value strictly inside (-1e-10, 0) is clipped to
exactly 0, a value at or below -1e-10 raises the negative-load error, a
non-negative value is stored unchanged, and whenever the negative-load
error is not raised the stored value is non-negative. -/
theorem C4_indirect_load_never_negative
    (ws : Workstation) (o : Order) (t : Task) (k : ℚ)
    (ind pt : ℚ) (dep : ℤ) (v0 w0 : ℚ)
    (hv : v0 = ws.indirect_load - t.process_time / (t.depth : ℚ))
    (hw : w0 = ind - pt / (dep : ℚ)) :
    ((-tol < v0 ∧ v0 < 0 →
        (ws.add_task o t k).ws.indirect_load = 0 ∧
        (ws.add_task o t k).err ≠ some SimError.negativeIndirectLoad) ∧
     (v0 ≤ -tol →
        (ws.add_task o t k).err = some SimError.negativeIndirectLoad) ∧
     (0 ≤ v0 → (ws.add_task o t k).ws.indirect_load = v0) ∧
     ((ws.add_task o t k).err ≠ some SimError.negativeIndirectLoad →
        0 ≤ (ws.add_task o t k).ws.indirect_load)) ∧
    ((-tol < w0 ∧ w0 < 0 →
        (update_child_indirect_load ind pt dep).map Prod.fst = some 0) ∧
     (w0 ≤ -tol → update_child_indirect_load ind pt dep = none) ∧
     (0 ≤ w0 →
        (update_child_indirect_load ind pt dep).map Prod.fst = some w0) ∧
     (∀ r, update_child_indirect_load ind pt dep = some r → 0 ≤ r.1)) := by
  subst hv hw
  constructor
  · refine ⟨?_, ?_, ?_, ?_⟩
    · rintro ⟨h1, h2⟩
      have hcl := clipIndirect_of_mem _ h1 h2
      by_cases hm : t.task_name ∈ o.ready_tasks <;>
        simp [Workstation.add_task, hcl, hm]
    · intro hle
      have hcl := clipIndirect_of_le_neg_tol _ hle
      have hlt : clipIndirect (ws.indirect_load - t.process_time / (t.depth : ℚ)) < 0 :=
        (clipIndirect_lt_zero_iff _).mpr hle
      simp [Workstation.add_task, if_pos hlt]
    · intro h0
      have hcl := clipIndirect_of_nonneg _ h0
      have hnlt : ¬ clipIndirect (ws.indirect_load - t.process_time / (t.depth : ℚ)) < 0 := by
        rw [hcl]; linarith
      have hnlt2 : ¬ ws.indirect_load < t.process_time / (t.depth : ℚ) := by
        rw [not_lt]; linarith
      by_cases hm : t.task_name ∈ o.ready_tasks <;>
        simp [Workstation.add_task, hcl, hm, hnlt, hnlt2]
    · intro herr
      by_cases hle : ws.indirect_load - t.process_time / (t.depth : ℚ) ≤ -tol
      · exfalso
        apply herr
        have hlt := (clipIndirect_lt_zero_iff _).mpr hle
        simp [Workstation.add_task, if_pos hlt]
      · have hcl := clipIndirect_nonneg_of_not_le _ hle
        have hnlt : ¬ clipIndirect (ws.indirect_load - t.process_time / (t.depth : ℚ)) < 0 := by
          linarith
        by_cases hm : t.task_name ∈ o.ready_tasks <;>
          simp [Workstation.add_task, hnlt, hm] <;> exact hcl
  · refine ⟨?_, ?_, ?_, ?_⟩
    · rintro ⟨h1, h2⟩
      have hcl := clipIndirect_of_mem _ h1 h2
      have hnlt : ¬ clipIndirect (ind - pt / (dep : ℚ)) < 0 := by
        rw [hcl]; linarith
      simp [update_child_indirect_load, hcl, hnlt]
    · intro hle
      have hlt := (clipIndirect_lt_zero_iff _).mpr hle
      simp [update_child_indirect_load, if_pos hlt]
    · intro h0
      have hcl := clipIndirect_of_nonneg _ h0
      have hnlt : ¬ clipIndirect (ind - pt / (dep : ℚ)) < 0 := by
        rw [hcl]; linarith
      simp [update_child_indirect_load, hcl, hnlt]
      linarith
    · intro r hr
      by_cases hle : ind - pt / (dep : ℚ) ≤ -tol
      · have hlt := (clipIndirect_lt_zero_iff _).mpr hle
        simp [update_child_indirect_load, if_pos hlt] at hr
      · have hcl := clipIndirect_nonneg_of_not_le _ hle
        have hnlt : ¬ clipIndirect (ind - pt / (dep : ℚ)) < 0 := by
          linarith
        simp [update_child_indirect_load, hnlt] at hr
        rw [← hr]
        exact hcl

/-- Witness for C4 at concrete inputs: one decrement landing inside
(-1e-10, 0) and clipped to 0, one decrement at -1 raising the error, and
one plain decrement of a child load. -/
theorem C4_witness :
    ((sampleWs "A-1" "A" (1 - 1 / 10 ^ 11) []).add_task
        (Order.init "O-1" 0 10 0 [sampleTask "T1" 1 "A" (some "A-1") none 1 []])
        (sampleTask "T1" 1 "A" (some "A-1") none 1 []) (2 / 10)).ws.indirect_load
      = 0 ∧
    ((sampleWs "A-1" "A" 0 []).add_task
        (Order.init "O-1" 0 10 0 [sampleTask "T1" 1 "A" (some "A-1") none 1 []])
        (sampleTask "T1" 1 "A" (some "A-1") none 1 []) (2 / 10)).err
      = some SimError.negativeIndirectLoad ∧
    (update_child_indirect_load 2 1 1).map Prod.fst = some 1 := by
  refine ⟨?_, ?_, ?_⟩
  · exact ((C4_indirect_load_never_negative
      (sampleWs "A-1" "A" (1 - 1 / 10 ^ 11) [])
      (Order.init "O-1" 0 10 0 [sampleTask "T1" 1 "A" (some "A-1") none 1 []])
      (sampleTask "T1" 1 "A" (some "A-1") none 1 []) (2 / 10) 2 1 1
      _ _ rfl rfl).1.1
      (by norm_num [sampleWs, sampleTask, Task.process_time, Task.depth,
        Task.data, tol])).1
  · exact (C4_indirect_load_never_negative
      (sampleWs "A-1" "A" 0 [])
      (Order.init "O-1" 0 10 0 [sampleTask "T1" 1 "A" (some "A-1") none 1 []])
      (sampleTask "T1" 1 "A" (some "A-1") none 1 []) (2 / 10) 2 1 1
      _ _ rfl rfl).1.2.1
      (by norm_num [sampleWs, sampleTask, Task.process_time, Task.depth,
        Task.data, tol])
  · have h := (C4_indirect_load_never_negative
      (sampleWs "A-1" "A" 0 [])
      (Order.init "O-1" 0 10 0 [sampleTask "T1" 1 "A" (some "A-1") none 1 []])
      (sampleTask "T1" 1 "A" (some "A-1") none 1 []) (2 / 10) 2 1 1
      _ _ rfl rfl).2.2.2.1 (by norm_num)
    norm_num at h
    simpa using h

/-- C10 counterexample: with indirect_load = 1 - 1e-11 and a task of
load 1 not in ready_tasks, add_task raises, but the stored indirect_load
is the clipped value 0, not the exact decrement -1e-11 the claim states. -/
theorem C10_counterexample :
    (((sampleWs "A-1" "A" (1 - 1 / 10 ^ 11) []).add_task
        { Order.init "O-1" 0 10 0 [sampleTask "T1" 1 "A" (some "A-1") none 1 []]
          with ready_tasks := ([] : List String) }
        (sampleTask "T1" 1 "A" (some "A-1") none 1 []) 0).err.isSome = true) ∧
    ((sampleWs "A-1" "A" (1 - 1 / 10 ^ 11) []).add_task
        { Order.init "O-1" 0 10 0 [sampleTask "T1" 1 "A" (some "A-1") none 1 []]
          with ready_tasks := ([] : List String) }
        (sampleTask "T1" 1 "A" (some "A-1") none 1 []) 0).ws.indirect_load = 0 ∧
    (sampleWs "A-1" "A" (1 - 1 / 10 ^ 11) []).indirect_load -
        (sampleTask "T1" 1 "A" (some "A-1") none 1 []).process_time /
          ((sampleTask "T1" 1 "A" (some "A-1") none 1 []).depth : ℚ)
      ≠ 0 := by
  have habs : |((10 : ℚ) ^ 11)⁻¹| < tol := by
    rw [abs_of_pos (by positivity)]
    norm_num [tol]
  refine ⟨?_, ?_, ?_⟩
  · simp [Workstation.add_task, clipIndirect, sampleWs, sampleTask,
      Task.process_time, Task.depth, Task.data, Task.task_name, habs]
  · simp [Workstation.add_task, clipIndirect, sampleWs, sampleTask,
      Task.process_time, Task.depth, Task.data, Task.task_name, habs]
  · simp [sampleWs, sampleTask, Task.process_time, Task.depth, Task.data]

/-- C10 (amended): if add_task is called while the task is not in the
order's ready_tasks, the call raises an error (the negative-load error
when the decremented indirect_load is at or below -1e-10, otherwise the
ready-list removal error), and at the moment the error is raised the
station's indirect_load has already been set to the decremented value
(clipped to exactly 0 when the decrement lands strictly inside
(-1e-10, 0)) with this change not rolled back, while (order, task) has
not been appended to the station's queue and the order is unchanged. -/
theorem C10_add_task_not_ready
    (ws : Workstation) (o : Order) (t : Task) (k : ℚ)
    (hm : t.task_name ∉ o.ready_tasks) :
    (ws.add_task o t k).err.isSome = true ∧
    (ws.add_task o t k).ws.indirect_load
      = clipIndirect (ws.indirect_load - t.process_time / (t.depth : ℚ)) ∧
    (ws.add_task o t k).ws.ws_tasks_queue = ws.ws_tasks_queue ∧
    (ws.add_task o t k).order = o := by
  by_cases hlt : clipIndirect (ws.indirect_load - t.process_time / (t.depth : ℚ)) < 0 <;>
    simp [Workstation.add_task, hlt, hm]

/-- Witness for C10 at a concrete input: indirect_load 5, a unit load,
task not ready. -/
theorem C10_witness :
    (((sampleWs "A-1" "A" 5 []).add_task
        { Order.init "O-1" 0 10 0 [sampleTask "T1" 1 "A" (some "A-1") none 1 []]
          with ready_tasks := ([] : List String) }
        (sampleTask "T1" 1 "A" (some "A-1") none 1 []) 0).err.isSome = true) ∧
    ((sampleWs "A-1" "A" 5 []).add_task
        { Order.init "O-1" 0 10 0 [sampleTask "T1" 1 "A" (some "A-1") none 1 []]
          with ready_tasks := ([] : List String) }
        (sampleTask "T1" 1 "A" (some "A-1") none 1 []) 0).ws.ws_tasks_queue = [] := by
  have h := C10_add_task_not_ready
    (sampleWs "A-1" "A" 5 [])
    { Order.init "O-1" 0 10 0 [sampleTask "T1" 1 "A" (some "A-1") none 1 []]
      with ready_tasks := ([] : List String) }
    (sampleTask "T1" 1 "A" (some "A-1") none 1 []) 0
    (by simp)
  exact ⟨h.1, by rw [h.2.2.1]; simp [sampleWs]⟩

/-- C5 counterexample: a task assigned to B-1 processed at A-1 is only
logged, not raised (err = none), and removing a pair that is not in the
queue is likewise only logged; both calls leave the state unchanged. -/
theorem C5_counterexample :
    (process_task [sampleWs "A-1" "A" 0 []] "A-1"
        (Order.init "O-1" 0 10 0 [sampleTask "T1" 1 "A" (some "B-1") none 1 []])
        (sampleTask "T1" 1 "A" (some "B-1") none 1 []) [] 0 0).err = none ∧
    (process_task [sampleWs "A-1" "A" 0 []] "A-1"
        (Order.init "O-1" 0 10 0 [sampleTask "T1" 1 "A" (some "B-1") none 1 []])
        (sampleTask "T1" 1 "A" (some "B-1") none 1 []) [] 0 0).logged_misassigned
      = some ("T1", "O-1") ∧
    (remove_task [sampleWs "A-1" "A" 0 []] "A-1"
        (Order.init "O-1" 0 10 0 [sampleTask "T1" 1 "A" (some "A-1") none 1 []])
        (sampleTask "T1" 1 "A" (some "A-1") none 1 []) 0).err = none ∧
    (remove_task [sampleWs "A-1" "A" 0 []] "A-1"
        (Order.init "O-1" 0 10 0 [sampleTask "T1" 1 "A" (some "A-1") none 1 []])
        (sampleTask "T1" 1 "A" (some "A-1") none 1 []) 0).logged_not_in_queue
      = some ("T1", "O-1", "A-1") := by
  refine ⟨?_, ?_, ?_, ?_⟩ <;>
    simp [process_task, remove_task, findStation, sampleWs, sampleTask,
      Task.assigned_station, Task.task_name, Task.data, Order.init]

/-- C5 (amended): a process_task call with a task assigned to a different
workstation, and a remove_task call with a pair not in the queue, log an
error message carrying the offending identifiers and return normally with
the state unchanged; neither raises. -/
theorem C5_mismatch_and_missing_pair_only_logged :
    (∀ (stations : List Workstation) (sid : String) (o : Order) (t : Task)
       (w : List String) (now k : ℚ) (rid : String),
       t.assigned_station = some rid → rid ≠ sid →
       process_task stations sid o t w now k
         = ⟨stations, o, w, none, some (t.task_name, o.order_id)⟩) ∧
    (∀ (stations : List Workstation) (sid : String) (o : Order) (t : Task)
       (now : ℚ) (ws : Workstation),
       findStation stations sid = some ws →
       ws.ws_tasks_queue.any
         (fun e => e.order_id = o.order_id ∧ e.task_name = t.task_name) = false →
       remove_task stations sid o t now
         = ⟨stations, o, none, some (t.task_name, o.order_id, sid)⟩) := by
  constructor
  · intro stations sid o t w now k rid ha hne
    simp [process_task, ha, hne]
  · intro stations sid o t now ws hfind hq
    have hq2 : ¬ (ws.ws_tasks_queue.any
        (fun e => e.order_id = o.order_id ∧ e.task_name = t.task_name) = true) := by
      rw [hq]
      simp
    unfold remove_task
    rw [hfind]
    dsimp only
    rw [if_neg hq2]

/-- Witness for C5 at concrete inputs. -/
theorem C5_witness :
    (process_task [sampleWs "B-1" "B" 0 []] "B-1"
        (Order.init "O-2" 0 10 0 [sampleTask "T2" 1 "B" (some "B-2") none 1 []])
        (sampleTask "T2" 1 "B" (some "B-2") none 1 []) [] 0 0).err = none ∧
    (remove_task [sampleWs "B-1" "B" 0 []] "B-1"
        (Order.init "O-2" 0 10 0 [sampleTask "T2" 1 "B" (some "B-1") none 1 []])
        (sampleTask "T2" 1 "B" (some "B-1") none 1 []) 0).err = none := by
  constructor
  · rw [(C5_mismatch_and_missing_pair_only_logged.1 _ "B-1" _ _ [] 0 0 "B-2"
      (by simp [sampleTask, Task.assigned_station, Task.data]) (by simp))]
  · rw [(C5_mismatch_and_missing_pair_only_logged.2 _ "B-1" _ _ 0
      (sampleWs "B-1" "B" 0 []) (by simp [findStation, sampleWs]) (by simp [sampleWs]))]

/-- C9 counterexample: an invalid pool sequencing rule and an invalid
dispatching rule are logged (boolean flag true) and the call returns
normally with the list unchanged; the program does not terminate with an
error. -/
theorem C9_counterexample :
    sort_orders "LIFO" 0 [Order.init "O-1" 0 10 0 []]
      = ([Order.init "O-1" 0 10 0 []], true) ∧
    (sampleWs "A-1" "A" 0 []).sort_tasks "LPT"
      = (sampleWs "A-1" "A" 0 [], true) := by
  constructor
  · simp [sort_orders]
  · simp [Workstation.sort_tasks]

/-- C9 (amended): on a pool sequencing rule outside FCFS/EDD/CR with a
non-empty pool, sort_orders logs the configuration error and continues
with the pool unchanged; on a dispatching rule outside FCFS/SPT/PST,
sort_tasks logs the configuration error and continues with the queue
unchanged.  Neither call terminates the simulation. -/
theorem C9_invalid_rule_logged_and_continues :
    (∀ (rule : String) (now : ℚ) (pool : List Order),
       rule ≠ "FCFS" → rule ≠ "EDD" → rule ≠ "CR" → pool ≠ [] →
       sort_orders rule now pool = (pool, true)) ∧
    (∀ (ws : Workstation) (rule : String),
       rule ≠ "FCFS" → rule ≠ "SPT" → rule ≠ "PST" →
       ws.sort_tasks rule = (ws, true)) := by
  constructor
  · intro rule now pool h1 h2 h3 hne
    have hlen : 0 < pool.length := List.length_pos.mpr hne
    simp [sort_orders, hlen, h1, h2, h3]
  · intro ws rule h1 h2 h3
    simp [Workstation.sort_tasks, h1, h2, h3]

/-- Witness for C9 at concrete inputs. -/
theorem C9_witness :
    sort_orders "EDF" 0 [Order.init "O-3" 0 10 0 []]
      = ([Order.init "O-3" 0 10 0 []], true) ∧
    (sampleWs "C-1" "C" 0 []).sort_tasks "EDF"
      = (sampleWs "C-1" "C" 0 [], true) :=
  ⟨C9_invalid_rule_logged_and_continues.1 "EDF" 0 _
      (by simp) (by simp) (by simp) (by simp),
   C9_invalid_rule_logged_and_continues.2 _ "EDF" (by simp) (by simp) (by simp)⟩

theorem mctbFold_choice (l : List Task) :
    ∀ acc : ℚ × ℕ,
      mctbFold acc l = acc ∨
      ∃ c ∈ l, mctbFold acc l = calculate_most_time_consuming_branch c := by
  induction l with
  | nil => intro acc; exact Or.inl rfl
  | cons c cs ih =>
    intro acc
    rw [mctbFold]
    rcases ih (if (calculate_most_time_consuming_branch c).1 > acc.1
        then calculate_most_time_consuming_branch c else acc) with h | ⟨c', hc', h⟩
    · rw [h]
      split_ifs with hgt
      · exact Or.inr ⟨c, List.mem_cons_self c cs, rfl⟩
      · exact Or.inl rfl
    · exact Or.inr ⟨c', List.mem_cons_of_mem c hc', h⟩

theorem mctbFold_bound (l : List Task) :
    ∀ acc : ℚ × ℕ,
      acc.1 ≤ (mctbFold acc l).1 ∧
      ∀ c ∈ l,
        (calculate_most_time_consuming_branch c).1 ≤ (mctbFold acc l).1 := by
  induction l with
  | nil => intro acc; exact ⟨le_refl _, by simp⟩
  | cons c cs ih =>
    intro acc
    rw [mctbFold]
    set acc1 := if (calculate_most_time_consuming_branch c).1 > acc.1
        then calculate_most_time_consuming_branch c else acc with hacc1
    have h1 : acc.1 ≤ acc1.1 := by
      rw [hacc1]; split_ifs with hgt
      · exact le_of_lt hgt
      · exact le_refl _
    have h2 : (calculate_most_time_consuming_branch c).1 ≤ acc1.1 := by
      rw [hacc1]; split_ifs with hgt
      · exact le_refl _
      · exact le_of_not_lt hgt
    refine ⟨h1.trans (ih acc1).1, ?_⟩
    intro c' hc'
    rcases List.mem_cons.mp hc' with rfl | hmem
    · exact h2.trans (ih acc1).1
    · exact (ih acc1).2 c' hmem

theorem branchesList_mem_iff (q : ℚ × ℕ) (l : List Task) :
    q ∈ branchesList l ↔ ∃ c ∈ l, q ∈ branches c := by
  induction l with
  | nil => simp [branchesList]
  | cons c cs ih =>
    rw [branchesList]
    simp only [List.mem_append, ih, List.mem_cons]
    constructor
    · rintro (h | ⟨c', hc', h⟩)
      · exact ⟨c, Or.inl rfl, h⟩
      · exact ⟨c', Or.inr hc', h⟩
    · rintro ⟨c', h1 | h1, h2⟩
      · subst h1; exact Or.inl h2
      · exact Or.inr ⟨c', h1, h2⟩

theorem mctb_spec (t : Task) :
    calculate_most_time_consuming_branch t ∈ branches t ∧
    ∀ p ∈ branches t, p.1 ≤ (calculate_most_time_consuming_branch t).1 := by
  match t with
  | .mk d [] => simp [calculate_most_time_consuming_branch, branches]
  | .mk d (c :: cs) =>
    have ih : ∀ c' ∈ c :: cs,
        calculate_most_time_consuming_branch c' ∈ branches c' ∧
        ∀ p ∈ branches c', p.1 ≤ (calculate_most_time_consuming_branch c').1 :=
      fun c' _ => mctb_spec c'
    rw [calculate_most_time_consuming_branch, branches]
    constructor
    · rcases mctbFold_choice cs (calculate_most_time_consuming_branch c) with h | ⟨c', hc', h⟩
      · refine List.mem_map.mpr ⟨mctbFold (calculate_most_time_consuming_branch c) cs, ?_, ?_⟩
        · exact (branchesList_mem_iff _ _).mpr
            ⟨c, List.mem_cons_self c cs,
             by rw [h]; exact (ih c (List.mem_cons_self c cs)).1⟩
        · simp [Nat.add_comm]
      · refine List.mem_map.mpr ⟨mctbFold (calculate_most_time_consuming_branch c) cs, ?_, ?_⟩
        · exact (branchesList_mem_iff _ _).mpr
            ⟨c', List.mem_cons_of_mem c hc',
             by rw [h]; exact (ih c' (List.mem_cons_of_mem c hc')).1⟩
        · simp [Nat.add_comm]
    · intro p hp
      rcases List.mem_map.mp hp with ⟨q, hq, rfl⟩
      rcases (branchesList_mem_iff q (c :: cs)).mp hq with ⟨c', hc', hqc⟩
      have hb := (ih c' hc').2 q hqc
      have hfold : (calculate_most_time_consuming_branch c').1 ≤
          (mctbFold (calculate_most_time_consuming_branch c) cs).1 := by
        rcases List.mem_cons.mp hc' with rfl | hmem
        · exact (mctbFold_bound cs (calculate_most_time_consuming_branch c')).1
        · exact (mctbFold_bound cs (calculate_most_time_consuming_branch c)).2 c' hmem
      simp only []
      linarith
termination_by sizeOf t
decreasing_by
  have h1 := List.sizeOf_lt_of_mem (by assumption : c' ∈ c :: cs)
  simp only [Task.mk.sizeOf_spec]
  omega

/-- C6: calculate_planned_start_time sets the planned start time to
due_date - T - k * n where (T, n) is the result of
calculate_most_time_consuming_branch; that result is one of the
root-to-leaf branches of the subtree rooted at the task (its total
process time paired with its task count, both including the task itself),
and T is maximal among all branch times. -/
theorem C6_planned_start_time (due k : ℚ) (t : Task) :
    calculate_planned_start_time due k t
      = due - (calculate_most_time_consuming_branch t).1
          - k * ((calculate_most_time_consuming_branch t).2 : ℚ) ∧
    calculate_most_time_consuming_branch t ∈ branches t ∧
    ∀ p ∈ branches t, p.1 ≤ (calculate_most_time_consuming_branch t).1 :=
  ⟨rfl, (mctb_spec t).1, (mctb_spec t).2⟩

/-- Witness for C6 on the concrete tree P(2) -> X(8), Y(4) with due date
20 and allowance 1/2: the branch (10, 2) wins and the shorter branch
(6, 2) is bounded by it. -/
theorem C6_witness :
    calculate_planned_start_time 20 (1 / 2)
        (sampleTask "P" 2 "A" none none 1
          [sampleTask "X" 8 "B" none (some "P") 2 [],
           sampleTask "Y" 4 "C" none (some "P") 2 []]) = 9 ∧
    ((6 : ℚ), 2).1 ≤ (calculate_most_time_consuming_branch
        (sampleTask "P" 2 "A" none none 1
          [sampleTask "X" 8 "B" none (some "P") 2 [],
           sampleTask "Y" 4 "C" none (some "P") 2 []])).1 := by
  have h := C6_planned_start_time 20 (1 / 2)
    (sampleTask "P" 2 "A" none none 1
      [sampleTask "X" 8 "B" none (some "P") 2 [],
       sampleTask "Y" 4 "C" none (some "P") 2 []])
  constructor
  · rw [h.1]
    norm_num [sampleTask, calculate_most_time_consuming_branch, mctbFold,
      Task.data, Task.process_time]
  · refine h.2.2 ((6 : ℚ), 2) ?_
    norm_num [sampleTask, branches, branchesList, Task.data, Task.process_time]

/-- C8: for every pool, sort_orders under each of the three rules returns
a permutation of the pool that is sorted by priority ascending and,
within equal priority, by the rule's secondary key: arrival_time under
FCFS, due_date under EDD, and (due_date - now) / total_process_time under
CR (the CR case stated under the positivity of total process times, which
the source presumes by dividing). -/
theorem C8_sort_orders (now : ℚ) (pool : List Order) :
    ((sort_orders "FCFS" now pool).1.Perm pool ∧
      (sort_orders "FCFS" now pool).1.Sorted (keyLe fcfsOrderKey)) ∧
    ((sort_orders "EDD" now pool).1.Perm pool ∧
      (sort_orders "EDD" now pool).1.Sorted (keyLe eddOrderKey)) ∧
    ((∀ o ∈ pool, 0 < o.total_process_time) →
      (sort_orders "CR" now pool).1.Perm pool ∧
      (sort_orders "CR" now pool).1.Sorted (keyLe (crOrderKey now))) := by
  match pool with
  | [] =>
    refine ⟨⟨?_, ?_⟩, ⟨?_, ?_⟩, fun _ => ⟨?_, ?_⟩⟩ <;>
      simp [sort_orders, List.Sorted]
  | p :: ps =>
    have hlen : 0 < (p :: ps).length := by simp
    refine ⟨⟨?_, ?_⟩, ⟨?_, ?_⟩, fun _ => ⟨?_, ?_⟩⟩ <;>
      simp only [sort_orders, hlen, if_pos, if_true, reduceIte] <;>
      first
        | exact List.perm_insertionSort _ _
        | exact List.sorted_insertionSort _ _

/-- Witness for C8 at concrete inputs: a CR pool with positive total
process time, and a sorted FCFS result. -/
theorem C8_witness :
    ((sort_orders "CR" 0
        [Order.init "O-1" 0 10 0 [sampleTask "T1" 1 "A" none none 1 []]]).1.Perm
      [Order.init "O-1" 0 10 0 [sampleTask "T1" 1 "A" none none 1 []]]) ∧
    (sort_orders "FCFS" 0
        [Order.init "O-2" 0 10 0 []]).1.Sorted (keyLe fcfsOrderKey) := by
  constructor
  · refine ((C8_sort_orders 0 _).2.2 ?_).1
    intro o ho
    rw [List.mem_singleton] at ho
    subst ho
    norm_num [Order.total_process_time, Order.init, Order.flat_plan,
      flattenTasks, sampleTask, Task.process_time, Task.data]
  · exact (C8_sort_orders 0 _).1.2

theorem is_finished_iff (o : Order) :
    o.is_finished = true ↔
      o.completed_tasks.toFinset = (o.flat_plan.map Task.task_name).toFinset := by
  unfold Order.is_finished
  exact decide_eq_true_iff

/-- C7: identifying tasks by their (unique) names, the order constructor
establishes the invariant finish_time > 0 iff all tasks completed (with
the left side false on a non-empty plan), marking a task completed
preserves it at any positive time, and when the marking completes the
order, finish_time is set to exactly the time of that completion. -/
theorem C7_finish_time_iff_completed
    (plan : List Task) (oid : String) (arr due : ℚ) (pr : ℤ)
    (o : Order) (t : Task) (now : ℚ)
    (hne : flattenTasks plan ≠ [])
    (hsub : ∀ n ∈ o.completed_tasks, n ∈ o.flat_plan.map Task.task_name)
    (hiff : 0 < o.finish_time ↔
      ∀ n ∈ o.flat_plan.map Task.task_name, n ∈ o.completed_tasks)
    (ht : t.task_name ∈ o.flat_plan.map Task.task_name)
    (hnow : 0 < now) :
    (¬ 0 < (Order.init oid arr due pr plan).finish_time) ∧
    (¬ ∀ n ∈ (Order.init oid arr due pr plan).flat_plan.map Task.task_name,
        n ∈ (Order.init oid arr due pr plan).completed_tasks) ∧
    (∀ n ∈ (mark_task_as_completed o t now).completed_tasks,
        n ∈ (mark_task_as_completed o t now).flat_plan.map Task.task_name) ∧
    (0 < (mark_task_as_completed o t now).finish_time ↔
      ∀ n ∈ (mark_task_as_completed o t now).flat_plan.map Task.task_name,
        n ∈ (mark_task_as_completed o t now).completed_tasks) ∧
    ((mark_task_as_completed o t now).is_finished = true →
      (mark_task_as_completed o t now).finish_time = now) := by
  have hinit1 : ¬ 0 < (Order.init oid arr due pr plan).finish_time := by
    simp [Order.init]
  have hinit2 : ¬ ∀ n ∈ (Order.init oid arr due pr plan).flat_plan.map Task.task_name,
      n ∈ (Order.init oid arr due pr plan).completed_tasks := by
    intro hall
    rcases List.exists_mem_of_ne_nil _ hne with ⟨t0, ht0⟩
    have := hall t0.task_name
      (List.mem_map.mpr ⟨t0, by simpa [Order.init, Order.flat_plan] using ht0, rfl⟩)
    simp [Order.init] at this
  set o1 : Order := { o with
    completed_tasks :=
      if t.task_name ∈ o.completed_tasks then o.completed_tasks
      else o.completed_tasks ++ [t.task_name],
    ready_tasks := o.ready_tasks ++ t.next_steps.map Task.task_name } with ho1
  have hmark : mark_task_as_completed o t now
      = if o1.is_finished then { o1 with finish_time := now } else o1 := rfl
  have hflat1 : o1.flat_plan = o.flat_plan := rfl
  have hcomp1 : ∀ n ∈ o1.completed_tasks, n ∈ o.flat_plan.map Task.task_name := by
    intro n hn
    rw [ho1] at hn
    by_cases hmem : t.task_name ∈ o.completed_tasks
    · rw [if_pos hmem] at hn
      exact hsub n hn
    · rw [if_neg hmem] at hn
      rcases List.mem_append.mp hn with h | h
      · exact hsub n h
      · rw [List.mem_singleton.mp h]
        exact ht
  have hc1 : o1.completed_tasks
      = (if t.task_name ∈ o.completed_tasks then o.completed_tasks
         else o.completed_tasks ++ [t.task_name]) := rfl
  have hsup : o.completed_tasks ⊆ o1.completed_tasks := by
    intro x hx
    rw [hc1]
    by_cases hmem : t.task_name ∈ o.completed_tasks
    · rw [if_pos hmem]; exact hx
    · rw [if_neg hmem]
      exact List.mem_append.mpr (Or.inl hx)
  have htmem : t.task_name ∈ o1.completed_tasks := by
    rw [hc1]
    by_cases hmem : t.task_name ∈ o.completed_tasks
    · rw [if_pos hmem]; exact hmem
    · rw [if_neg hmem]
      exact List.mem_append.mpr (Or.inr (List.mem_singleton.mpr rfl))
  refine ⟨hinit1, hinit2, ?_, ?_, ?_⟩
  · intro n hn
    by_cases hf : o1.is_finished <;>
      simp only [hmark, hf, if_true, if_false, reduceIte] at hn ⊢ <;>
      exact hcomp1 n hn
  · by_cases hf : o1.is_finished
    · have hfin := (is_finished_iff o1).mp hf
      constructor
      · intro _ n hn
        simp only [hmark, hf, reduceIte] at hn ⊢
        have : n ∈ o1.completed_tasks.toFinset := by
          rw [hfin, List.mem_toFinset]
          exact hn
        exact List.mem_toFinset.mp this
      · intro _
        simp only [hmark, hf, reduceIte]
        exact hnow
    · have hnotall : ¬ ∀ n ∈ o.flat_plan.map Task.task_name,
          n ∈ o1.completed_tasks := by
        intro hall
        apply hf
        rw [is_finished_iff o1]
        apply Finset.Subset.antisymm
        · intro x hx
          rw [List.mem_toFinset] at hx ⊢
          exact hcomp1 x hx
        · intro x hx
          rw [List.mem_toFinset] at hx ⊢
          exact hall x hx
      constructor
      · intro hpos
        exfalso
        simp only [hmark, hf, reduceIte] at hpos
        have := hiff.mp hpos
        exact hnotall (fun n hn => hsup (this n hn))
      · intro hall
        exfalso
        simp only [hmark, hf, reduceIte] at hall
        exact hnotall hall
  · intro hf
    have hf1 : o1.is_finished = true := by
      by_cases h : o1.is_finished
      · exact h
      · simp only [hmark, h, reduceIte] at hf
        exact absurd hf (by simp [h])
    simp only [hmark, hf1, reduceIte]

/-- Witness for C7 at a concrete input: a single-task order completed at
time 3. -/
theorem C7_witness :
    (¬ 0 < (Order.init "O-1" 0 10 0
        [sampleTask "T1" 1 "A" none none 1 []]).finish_time) ∧
    ((mark_task_as_completed
        (Order.init "O-1" 0 10 0 [sampleTask "T1" 1 "A" none none 1 []])
        (sampleTask "T1" 1 "A" none none 1 []) 3).is_finished = true →
      (mark_task_as_completed
        (Order.init "O-1" 0 10 0 [sampleTask "T1" 1 "A" none none 1 []])
        (sampleTask "T1" 1 "A" none none 1 []) 3).finish_time = 3) := by
  have h := C7_finish_time_iff_completed
    [sampleTask "T1" 1 "A" none none 1 []] "O-1" 0 10 0
    (Order.init "O-1" 0 10 0 [sampleTask "T1" 1 "A" none none 1 []])
    (sampleTask "T1" 1 "A" none none 1 []) 3
    (by simp [flattenTasks, sampleTask])
    (by simp [Order.init])
    (by
      constructor
      · intro hpos
        simp [Order.init] at hpos
      · intro hall
        have := hall "T1" (by
          simp [Order.init, Order.flat_plan, flattenTasks, sampleTask,
            Task.task_name, Task.data])
        simp [Order.init] at this)
    (by simp [Order.init, Order.flat_plan, flattenTasks, sampleTask,
      Task.task_name, Task.data])
    (by norm_num)
  exact ⟨h.1, fun hf => h.2.2.2.2 hf⟩

theorem dictGet?_cons {α : Type} (a : String × α) (m : List (String × α))
    (k : String) :
    dictGet? (a :: m) k = if a.1 = k then some a.2 else dictGet? m k := by
  unfold dictGet?
  rw [List.find?_cons]
  by_cases h : a.1 = k <;> simp [h]

theorem dictGet?_map_overwrite {α : Type} (m : List (String × α))
    (k k' : String) (v : α) :
    dictGet? (m.map (fun p => if p.1 = k then (k, v) else p)) k'
      = if k' = k then (dictGet? m k).map (fun _ => v) else dictGet? m k' := by
  induction m with
  | nil => by_cases hk : k' = k <;> simp [dictGet?, hk]
  | cons a m ih =>
    rw [List.map_cons]
    by_cases ha : a.1 = k <;> by_cases hk : k' = k
    · subst hk
      rw [if_pos ha, if_pos rfl, dictGet?_cons, dictGet?_cons, if_pos ha,
        if_pos rfl]
      rfl
    · rw [if_pos ha, if_neg hk, dictGet?_cons, dictGet?_cons,
        if_neg (show ¬ (k = k') from fun h => hk h.symm),
        if_neg (show ¬ (a.1 = k') from ha ▸ fun h => hk h.symm), ih, if_neg hk]
    · subst hk
      rw [if_neg ha, if_pos rfl, dictGet?_cons, dictGet?_cons, if_neg ha,
        if_neg ha, ih, if_pos rfl]
    · rw [if_neg ha, dictGet?_cons, if_neg hk, dictGet?_cons]
      by_cases hb : a.1 = k'
      · rw [if_pos hb, if_pos hb]
      · rw [if_neg hb, if_neg hb, ih, if_neg hk]

theorem dictGet?_append {α : Type} (m l : List (String × α)) (k : String) :
    dictGet? (m ++ l) k = (dictGet? m k).or (dictGet? l k) := by
  unfold dictGet?
  rw [List.find?_append]
  cases m.find? (fun p => p.1 = k) <;> simp

theorem any_key_iff_isSome {α : Type} (m : List (String × α)) (k : String) :
    m.any (fun p => p.1 = k) = true ↔ (dictGet? m k).isSome = true := by
  unfold dictGet?
  have hmap : ∀ o : Option (String × α), (o.map Prod.snd).isSome = o.isSome :=
    fun o => by cases o <;> rfl
  rw [hmap, List.find?_isSome, List.any_eq_true]

theorem dictGet?_dictInsert {α : Type} (m : List (String × α))
    (k k' : String) (v : α) :
    dictGet? (dictInsert m k v) k' = if k' = k then some v else dictGet? m k' := by
  unfold dictInsert
  by_cases hany : m.any (fun p => p.1 = k)
  · rw [if_pos hany, dictGet?_map_overwrite]
    by_cases hk : k' = k
    · subst hk
      rw [if_pos rfl, if_pos rfl]
      have hsome : (dictGet? m k').isSome = true :=
        (any_key_iff_isSome m k').mp hany
      rcases Option.isSome_iff_exists.mp hsome with ⟨w, hw⟩
      rw [hw]
      rfl
    · rw [if_neg hk, if_neg hk]
  · rw [if_neg hany, dictGet?_append]
    by_cases hk : k' = k
    · subst hk
      have hnone : dictGet? m k' = none := by
        rcases h : dictGet? m k' with _ | w
        · rfl
        · exact absurd ((any_key_iff_isSome m k').mpr (by rw [h]; rfl)) hany
      rw [hnone, if_pos rfl]
      simp [dictGet?]
    · rw [if_neg hk]
      have : dictGet? [(k, v)] k' = none := by
        rw [dictGet?_cons, if_neg (show ¬ k = k' from fun h => hk h.symm)]
        rfl
      rw [this]
      cases dictGet? m k' <;> rfl

theorem contribOf_cons (p : String × List (String × (ℚ × ℤ)))
    (rest : LoadContributions) (k : String) :
    contribOf (p :: rest) k
      = (if p.1 = k then (p.2.map (fun q => q.2.1)).sum else 0)
        + contribOf rest k := by
  unfold contribOf
  by_cases h : p.1 = k <;> simp [h]

theorem estimate_inner_spec (sid : String) (tasks : List (String × (ℚ × ℤ))) :
    ∀ (est : List (String × ℚ)) (w : ℚ), dictGet? est sid = some w →
      ∃ est', (tasks.foldlM (fun est2 q =>
          match dictGet? est2 sid with
          | none => none
          | some v => some (dictInsert est2 sid (v + q.2.1))) est) = some est' ∧
        dictGet? est' sid = some (w + (tasks.map (fun q => q.2.1)).sum) ∧
        ∀ k, k ≠ sid → dictGet? est' k = dictGet? est k := by
  induction tasks with
  | nil =>
    intro est w hw
    exact ⟨est, rfl, by rw [hw]; norm_num, fun k _ => rfl⟩
  | cons q rest ih =>
    intro est w hw
    rcases ih (dictInsert est sid (w + q.2.1)) (w + q.2.1)
        (by rw [dictGet?_dictInsert, if_pos rfl]) with ⟨est', h1, h2, h3⟩
    refine ⟨est', ?_, ?_, ?_⟩
    · rw [List.foldlM_cons, hw]
      exact h1
    · rw [h2, List.map_cons, List.sum_cons, add_assoc]
    · intro k hk
      rw [h3 k hk, dictGet?_dictInsert, if_neg hk]

theorem estimate_outer_spec (lc : LoadContributions) :
    ∀ est : List (String × ℚ),
      (∀ p ∈ lc, (dictGet? est p.1).isSome = true) →
      ∃ est', (lc.foldlM (fun est1 p =>
          p.2.foldlM (fun est2 q =>
            match dictGet? est2 p.1 with
            | none => none
            | some v => some (dictInsert est2 p.1 (v + q.2.1))) est1) est)
        = some est' ∧
        ∀ k, dictGet? est' k
          = (dictGet? est k).map (fun w => w + contribOf lc k) := by
  induction lc with
  | nil =>
    intro est _
    refine ⟨est, rfl, fun k => ?_⟩
    cases h : dictGet? est k <;> simp [contribOf]
  | cons p rest ih =>
    intro est hpre
    have hp : (dictGet? est p.1).isSome = true := hpre p (List.mem_cons_self p rest)
    rcases Option.isSome_iff_exists.mp hp with ⟨w, hw⟩
    rcases estimate_inner_spec p.1 p.2 est w hw with ⟨est1, h1, h2, h3⟩
    have hpre1 : ∀ p' ∈ rest, (dictGet? est1 p'.1).isSome = true := by
      intro p' hp'
      by_cases hk : p'.1 = p.1
      · rw [hk, h2]; rfl
      · rw [h3 p'.1 hk]
        exact hpre p' (List.mem_cons_of_mem p hp')
    rcases ih est1 hpre1 with ⟨est2, h4, h5⟩
    refine ⟨est2, ?_, ?_⟩
    · rw [List.foldlM_cons, h1]
      exact h4
    · intro k
      rw [h5 k, contribOf_cons]
      by_cases hk : k = p.1
      · subst hk
        rw [h2, hw, if_pos rfl]
        simp [add_assoc]
      · rw [h3 k hk, if_neg (fun h => hk h.symm)]
        cases dictGet? est k <;> simp

theorem station_loads_lookup (station_list : List Workstation)
    (hnodup : (station_list.map Workstation.id).Nodup) :
    ∀ ws ∈ station_list,
      dictGet? (station_list.map (fun w => (w.id, w.current_load))) ws.id
        = some ws.current_load := by
  induction station_list with
  | nil => intro ws h; cases h
  | cons a rest ih =>
    intro ws hws
    rw [List.map_cons, dictGet?_cons]
    rcases List.mem_cons.mp hws with rfl | hmem
    · rw [if_pos rfl]
    · have hne : a.id ≠ ws.id := by
        intro he
        have : ws.id ∈ rest.map Workstation.id := List.mem_map_of_mem _ hmem
        rw [List.map_cons] at hnodup
        exact (List.nodup_cons.mp hnodup).1 (he ▸ this)
      rw [if_neg hne]
      exact ih (List.nodup_cons.mp (by rwa [List.map_cons] at hnodup)).2 ws hmem

theorem filterMap_if_map_fst {β : Type} (sl : List Workstation)
    (cond : Workstation → Prop) [DecidablePred cond] (g : Workstation → β) :
    ((sl.filterMap (fun ws => if cond ws then some (ws.id, g ws) else none)).map
        Prod.fst)
      = (sl.filter (fun ws => decide (cond ws))).map Workstation.id := by
  induction sl with
  | nil => rfl
  | cons a rest ih =>
    rw [List.filterMap_cons, List.filter_cons]
    by_cases h : cond a <;> simp [h, ih]

/-- C2: can_release_order returns (true, empty list) iff every station's
current load plus the order's recorded contribution to it is at most the
workload norm; the returned list names exactly the stations whose
estimated post-release load strictly exceeds the norm (each paired with
its current, pre-release load), and is empty in the admissible case.  The
call is a pure function of the station loads and the order's recorded
contributions.  Stated under unique station ids and contributions keyed
by known stations, as in any configuration the source builds. -/
theorem C2_can_release_order (norm : ℚ) (station_list : List Workstation)
    (o : Order)
    (hnodup : (station_list.map Workstation.id).Nodup)
    (hkeys : ∀ p ∈ o.load_contributions,
      p.1 ∈ station_list.map Workstation.id) :
    ∃ r l, can_release_order norm station_list o = some (r, l) ∧
      (r = true ↔ ∀ ws ∈ station_list,
        ws.current_load + o.contribution_to ws.id ≤ norm) ∧
      l.map Prod.fst = (station_list.filter
        (fun ws => norm < ws.current_load + o.contribution_to ws.id)).map
          Workstation.id ∧
      (r = true → l = []) := by
  have hpre : ∀ p ∈ o.load_contributions,
      (dictGet? (station_list.map (fun w => (w.id, w.current_load))) p.1).isSome
        = true := by
    intro p hp
    rcases List.mem_map.mp (hkeys p hp) with ⟨w, hw1, hw2⟩
    have := station_loads_lookup station_list hnodup w hw1
    rw [hw2] at this
    rw [this]
    rfl
  rcases estimate_outer_spec o.load_contributions
      (station_list.map (fun w => (w.id, w.current_load))) hpre
    with ⟨est', hest, hspec⟩
  have hlook : ∀ ws ∈ station_list,
      (dictGet? est' ws.id).getD 0
        = ws.current_load + o.contribution_to ws.id := by
    intro ws hws
    rw [hspec, station_loads_lookup station_list hnodup ws hws]
    rfl
  set ov := station_list.filterMap (fun ws =>
    if norm < ws.current_load + o.contribution_to ws.id then
      some (ws.id, ws.current_load) else none) with hov
  have hcongr : station_list.filterMap (fun ws =>
        if (dictGet? est' ws.id).getD 0 > norm then
          some (ws.id,
            (dictGet? (station_list.map (fun w => (w.id, w.current_load)))
              ws.id).getD 0)
        else none)
      = ov := by
    rw [hov]
    apply List.filterMap_congr
    intro ws hws
    rw [hlook ws hws, station_loads_lookup station_list hnodup ws hws]
    rfl
  have hunfold : can_release_order norm station_list o
      = some (if ov.isEmpty then (true, ([] : List (String × ℚ)))
              else (false, ov)) := by
    simp only [can_release_order, Order.estimate_load_contribution]
    rw [hest]
    simp only [Option.map_some']
    rw [hcongr]
  have hovfst : ov.map Prod.fst = (station_list.filter
      (fun ws => norm < ws.current_load + o.contribution_to ws.id)).map
        Workstation.id :=
    filterMap_if_map_fst station_list _ _
  by_cases hemp : ov.isEmpty
  · refine ⟨true, [], ?_, ?_, ?_, fun _ => rfl⟩
    · rw [hunfold, if_pos hemp]
    · refine ⟨fun _ ws hws => ?_, fun _ => rfl⟩
      by_contra hgt
      push_neg at hgt
      have hmem : ws.id ∈ ov.map Prod.fst := by
        rw [hovfst]
        exact List.mem_map_of_mem _ (List.mem_filter.mpr ⟨hws, by simpa using hgt⟩)
      rw [List.isEmpty_iff.mp hemp] at hmem
      cases hmem
    · have hnil : ov = [] := List.isEmpty_iff.mp hemp
      rw [← hnil]
      exact hovfst
  · refine ⟨false, ov, ?_, ?_, hovfst, fun h => absurd h (by simp)⟩
    · rw [hunfold, if_neg hemp]
    · constructor
      · intro h
        exact absurd h (by simp)
      · intro hall
        exfalso
        apply hemp
        rw [List.isEmpty_iff]
        have hfilter : (station_list.filter
            (fun ws => norm < ws.current_load + o.contribution_to ws.id)) = [] := by
          rw [List.filter_eq_nil_iff]
          intro ws hws
          simp only [decide_eq_true_eq, not_lt]
          exact hall ws hws
        have hmapnil : ov.map Prod.fst = [] := by
          rw [hovfst, hfilter]
          rfl
        exact List.map_eq_nil_iff.mp hmapnil

/-- Witness for C2 at a concrete input: one station A-1 with current load
2, an order contributing 1 to it, norm 4 (admissible) -- the hypotheses
are discharged at this configuration. -/
theorem C2_witness :
    ∃ r l, can_release_order 4
        [sampleWs "A-1" "A" 2 []]
        { Order.init "O-1" 0 10 0 [] with
          load_contributions := [("A-1", [("T1", (1, 1))])] } = some (r, l) ∧
      (r = true ↔ ∀ ws ∈ [sampleWs "A-1" "A" 2 []],
        ws.current_load + Order.contribution_to
          { Order.init "O-1" 0 10 0 [] with
            load_contributions := [("A-1", [("T1", (1, 1))])] } ws.id ≤ 4) := by
  rcases C2_can_release_order 4 [sampleWs "A-1" "A" 2 []]
      { Order.init "O-1" 0 10 0 [] with
        load_contributions := [("A-1", [("T1", (1, 1))])] }
      (by simp [sampleWs])
      (by
        intro p hp
        rw [List.mem_singleton] at hp
        subst hp
        simp [sampleWs]) with ⟨r, l, h1, h2, h3, h4⟩
  exact ⟨r, l, h1, h2⟩

/-- C1: evaluating the routing code at the failing input.  The order's
single task T1 is first routed to station A-2, then re-routed to station
A-1; because compute_load_contributions only updates the existing
mapping, the resulting load_contributions holds entries under both A-1
and the stale A-2, whereas the from-scratch rebuild the claim describes
holds only the A-1 entry. -/
theorem C1_stale_entry_after_rerouting :
    (((set_detailed_routing [sampleWs "A-1" "A" 5 [], sampleWs "A-2" "A" 0 []]
        (Order.init "O-1" 0 10 0 [sampleTask "T1" 2 "A" none none 1 []])
        (some (sampleWs "A-2" "A" 0 []))).bind
      (fun o1 => set_detailed_routing
        [sampleWs "A-1" "A" 5 [], sampleWs "A-2" "A" 0 []]
        o1 (some (sampleWs "A-1" "A" 5 [])))).map
      (fun o2 => ((dictGet? o2.load_contributions "A-1").isSome,
                  (dictGet? o2.load_contributions "A-2").isSome))
      = some (true, true)) ∧
    ((((set_detailed_routing [sampleWs "A-1" "A" 5 [], sampleWs "A-2" "A" 0 []]
        (Order.init "O-1" 0 10 0 [sampleTask "T1" 2 "A" none none 1 []])
        (some (sampleWs "A-2" "A" 0 []))).bind
      (fun o1 => set_detailed_routing
        [sampleWs "A-1" "A" 5 [], sampleWs "A-2" "A" 0 []]
        o1 (some (sampleWs "A-1" "A" 5 [])))).bind
      compute_load_contributions_from_scratch).map
      (fun o3 => ((dictGet? o3.load_contributions "A-1").isSome,
                  (dictGet? o3.load_contributions "A-2").isSome))
      = some (true, false)) := by
  constructor <;>
    simp [set_detailed_routing, assign_stations_forest, assign_stations,
      sampleWs, sampleTask, Order.init, Order.flat_plan, flattenTasks,
      Order.compute_load_contributions, compute_load_contributions_from_scratch,
      clcStep, dictInsert, dictGet?, Task.data, Task.station, Task.depth,
      Task.assigned_station, Task.task_name, Task.calculate_load,
      Task.process_time, Task.next_steps, initialize_tasks]

theorem sort_orders_perm (rule : String) (now : ℚ) (pool : List Order) :
    (sort_orders rule now pool).1.Perm pool := by
  unfold sort_orders
  split_ifs <;>
    first
      | exact List.perm_insertionSort _ _
      | exact List.Perm.refl _

theorem length_le_eraseP_add_one {α : Type} (p : α → Bool) (l : List α) :
    l.length ≤ (l.eraseP p).length + 1 := by
  induction l with
  | nil => simp
  | cons a t ih =>
    rw [List.eraseP_cons]
    cases hpa : p a <;> simp only [hpa, cond_true, cond_false, List.length_cons]
    · omega
    · omega

theorem find?_decomp {α : Type} (p : α → Bool) :
    ∀ (l : List α) (a : α), l.find? p = some a →
      ∃ l1 l2, l = l1 ++ a :: l2 ∧ (∀ x ∈ l1, p x = false) ∧ p a = true := by
  intro l
  induction l with
  | nil => intro a h; cases h
  | cons b t ih =>
    intro a h
    cases hpb : p b
    · rw [List.find?_cons_of_neg t (by simp [hpb])] at h
      rcases ih a h with ⟨l1, l2, heq, h1, h2⟩
      refine ⟨b :: l1, l2, by rw [heq]; rfl, ?_, h2⟩
      intro x hx
      rcases List.mem_cons.mp hx with rfl | hx
      · exact hpb
      · exact h1 x hx
    · rw [List.find?_cons_of_pos t hpb] at h
      injection h with h
      subst h
      exact ⟨[], t, rfl, by simp, hpb⟩

theorem assign_stations_forced (sl : List Workstation) (trig : Workstation) :
    ∀ (plan plan' : List Task),
      assign_stations_forest sl (some trig) plan = some plan' →
      ∀ t ∈ flattenTasks plan', t.station = trig.type_id →
        t.assigned_station = some trig.id
  | [], plan', h => by
    simp only [assign_stations_forest] at h
    injection h with h
    subst h
    intro t ht
    simp [flattenTasks] at ht
  | Task.mk d ch :: rest, plan', h => by
    rw [assign_stations_forest] at h
    rcases ha : assign_stations sl (some trig) (Task.mk d ch) with _ | t1
    · rw [ha] at h; cases h
    · rw [ha] at h
      rcases hrest : assign_stations_forest sl (some trig) rest with _ | rest'
      · rw [hrest] at h; cases h
      · rw [hrest] at h
        simp only [Option.map_some] at h
        injection h with h
        subst h
        rw [assign_stations] at ha
        rcases hch : assign_stations_forest sl (some trig) ch with _ | ch'
        · by_cases hcond : d.station = trig.type_id <;>
            simp [hcond, hch] at ha
          rcases hsel : (select_station (sl.filter
              (fun st => st.id.startsWith d.station))).map Workstation.id
            with _ | lid
          · simp [hsel] at ha
          · simp [hsel, hch] at ha
        · by_cases hcond : d.station = trig.type_id
          · simp only [hcond, if_pos, reduceIte, hch, Option.map_some] at ha
            injection ha with ha
            subst ha
            intro t ht _
            rw [flattenTasks] at ht
            rcases List.mem_cons.mp ht with rfl | ht2
            · rfl
            · rcases List.mem_append.mp ht2 with h3 | h3
              · exact assign_stations_forced sl trig ch ch' hch t h3 (by assumption)
              · exact assign_stations_forced sl trig rest rest' hrest t h3
                  (by assumption)
          · rcases hsel : (select_station (sl.filter
                (fun st => st.id.startsWith d.station))).map Workstation.id
              with _ | lid
            · simp [hcond, hsel] at ha
            · simp only [hcond, if_neg, reduceIte, hsel, hch,
                Option.map_some] at ha
              injection ha with ha
              subst ha
              intro t ht hst
              rw [flattenTasks] at ht
              rcases List.mem_cons.mp ht with rfl | ht2
              · exact absurd hst (by simpa [Task.station, Task.data] using hcond)
              · rcases List.mem_append.mp ht2 with h3 | h3
                · exact assign_stations_forced sl trig ch ch' hch t h3 hst
                · exact assign_stations_forced sl trig rest rest' hrest t h3 hst

/-- C3 counterexample: with a pool that is not yet in pool-sequencing
order and a station no pooled order matches, continuous_release releases
nothing but still reorders the pool in place, so the pool is not left
unchanged. -/
theorem C3_counterexample :
    continuous_release "FCFS" 0 0
        { order_list := [Order.init "O-2" 0 10 2 [], Order.init "O-1" 0 10 1 []],
          station_list := [sampleWs "Z-1" "Z" 0 []] } "Z-1"
      = some { order_list :=
                 [Order.init "O-1" 0 10 1 [], Order.init "O-2" 0 10 2 []],
               station_list := [sampleWs "Z-1" "Z" 0 []] } ∧
    ([Order.init "O-1" 0 10 1 [], Order.init "O-2" 0 10 2 []]
      ≠ [Order.init "O-2" 0 10 2 [], Order.init "O-1" 0 10 1 []]) := by
  constructor
  · simp only [continuous_release, findStation, sampleWs, List.find?,
      List.isEmpty_cons, sort_orders]
    norm_num [List.insertionSort, List.orderedInsert, keyLe, fcfsOrderKey,
      Order.init, orderHasReadyFor, get_next_ready_tasks, initialize_tasks,
      flattenTasks, Order.flat_plan, List.find?]
  · intro h
    have := List.head_eq_of_cons_eq h
    simp [Order.init] at this

/-- C3 (amended): every invocation of continuous_release releases at most
one order.  With an empty pool nothing happens.  With a non-empty pool it
first sorts the pool in pool-sequencing order; if no pooled order has a
ready task of the station's type, all stations are left unchanged and the
pool keeps the same orders, re-sorted in place.  Otherwise the first
order of the sorted pool with a ready task of the station's type is
routed with this station as the forced assignment for every task of that
type, released, removed from the pool, and the station's idle event is
fired; no workload-norm admission test is involved (the function does not
consult any norm), so a release may push a station's current load above
any norm. -/
theorem C3_continuous_release
    (rule : String) (now k : ℚ) (st : ShopState) (sid : String)
    (station : Workstation)
    (hfind : findStation st.station_list sid = some station) :
    (st.order_list = [] → continuous_release rule now k st sid = some st) ∧
    (∀ st', continuous_release rule now k st sid = some st' →
      st.order_list.length ≤ st'.order_list.length + 1) ∧
    (st.order_list ≠ [] →
      (∀ o ∈ st.order_list, orderHasReadyFor o station.type_id = false) →
      continuous_release rule now k st sid
        = some { order_list := (sort_orders rule now st.order_list).1,
                 station_list := st.station_list } ∧
      (sort_orders rule now st.order_list).1.Perm st.order_list) ∧
    (∀ o o1 stations1 o2,
      (sort_orders rule now st.order_list).1.find?
          (fun x => orderHasReadyFor x station.type_id) = some o →
      set_detailed_routing st.station_list o (some station) = some o1 →
      release_order st.station_list o1 k = (stations1, o2, none) →
      st.order_list ≠ [] →
      continuous_release rule now k st sid
          = some { order_list := (sort_orders rule now st.order_list).1.eraseP
                     (fun x => decide (x.order_id = o.order_id)),
                   station_list := updateStation stations1 sid
                     (fun w => { w with idle_event_triggered := true }) } ∧
      (∃ l1 l2, (sort_orders rule now st.order_list).1 = l1 ++ o :: l2 ∧
        (∀ x ∈ l1, orderHasReadyFor x station.type_id = false) ∧
        orderHasReadyFor o station.type_id = true) ∧
      ((sort_orders rule now st.order_list).1.eraseP
          (fun x => decide (x.order_id = o.order_id))).length + 1
        = st.order_list.length ∧
      (∀ t ∈ o1.flat_plan, t.station = station.type_id →
        t.assigned_station = some station.id)) := by
  have hperm := sort_orders_perm rule now st.order_list
  have hbody : continuous_release rule now k st sid
      = (if st.order_list.isEmpty then some st
         else
          match (sort_orders rule now st.order_list).1.find?
              (fun o => orderHasReadyFor o station.type_id) with
          | none => some { st with
              order_list := (sort_orders rule now st.order_list).1 }
          | some o =>
            match set_detailed_routing st.station_list o (some station) with
            | none => none
            | some o1 =>
              match release_order st.station_list o1 k with
              | (_, _, some _) => none
              | (stations1, _, none) =>
                some { order_list :=
                         (sort_orders rule now st.order_list).1.eraseP
                           (fun x => decide (x.order_id = o.order_id)),
                       station_list := updateStation stations1 sid
                         (fun w => { w with idle_event_triggered := true }) }) := by
    unfold continuous_release
    rw [hfind]
  refine ⟨?_, ?_, ?_, ?_⟩
  · intro h
    rw [hbody, if_pos (List.isEmpty_iff.mpr h)]
  · intro st' h
    rw [hbody] at h
    by_cases hemp : st.order_list.isEmpty
    · rw [if_pos hemp] at h
      injection h with h
      subst h
      omega
    · rw [if_neg hemp] at h
      rcases hf : (sort_orders rule now st.order_list).1.find?
          (fun o => orderHasReadyFor o station.type_id) with _ | o
      · rw [hf] at h
        injection h with h
        subst h
        have := hperm.length_eq
        simp only [← this]
        omega
      · rw [hf] at h
        dsimp only at h
        rcases hr : set_detailed_routing st.station_list o (some station)
          with _ | o1
        · rw [hr] at h; cases h
        · rw [hr] at h
          dsimp only at h
          rcases hrel : release_order st.station_list o1 k with ⟨stations1, o2, err⟩
          rw [hrel] at h
          cases err with
          | some e => cases h
          | none =>
            injection h with h
            subst h
            have h1 := length_le_eraseP_add_one
              (fun x => decide (x.order_id = o.order_id))
              (sort_orders rule now st.order_list).1
            have h2 := hperm.length_eq
            simp only []
            omega
  · intro hne hall
    have hnemp : ¬ st.order_list.isEmpty = true := by
      simpa [List.isEmpty_iff] using hne
    have hf : (sort_orders rule now st.order_list).1.find?
        (fun o => orderHasReadyFor o station.type_id) = none := by
      rw [List.find?_eq_none]
      intro x hx
      simp [hall x (hperm.mem_iff.mp hx)]
    refine ⟨?_, hperm⟩
    rw [hbody, if_neg hnemp, hf]
  · intro o o1 stations1 o2 hf hr hrel hne
    have hnemp : ¬ st.order_list.isEmpty = true := by
      simpa [List.isEmpty_iff] using hne
    rcases find?_decomp _ _ _ hf with ⟨l1, l2, hdec, hl1, hpo⟩
    have hmem : o ∈ (sort_orders rule now st.order_list).1 := by
      rw [hdec]
      exact List.mem_append.mpr (Or.inr (List.mem_cons_self o l2))
    refine ⟨?_, ⟨l1, l2, hdec, fun x hx => hl1 x hx, hpo⟩, ?_, ?_⟩
    · rw [hbody, if_neg hnemp, hf]
      dsimp only
      rw [hr]
      dsimp only
      rw [hrel]
    · rw [List.length_eraseP_add_one hmem (by simp), hperm.length_eq]
    · rcases hforest : assign_stations_forest st.station_list (some station)
          o.process_plan with _ | plan1
      · rw [set_detailed_routing, hforest] at hr
        dsimp only at hr
        cases hr
      · rw [set_detailed_routing, hforest] at hr
        dsimp only at hr
        unfold Order.compute_load_contributions at hr
        rcases Option.map_eq_some'.mp hr with ⟨lc, hlc, hform⟩
        have hplan : o1.process_plan = plan1 := by rw [← hform]
        intro t ht hst
        have hflat : o1.flat_plan = flattenTasks plan1 := by
          rw [Order.flat_plan, hplan]
        rw [hflat] at ht
        exact assign_stations_forced st.station_list station
          o.process_plan plan1 hforest t ht hst

/-- Witness for C3: the empty-pool and no-match cases instantiated via
the theorem, plus a concrete run through the matching case: continuous
release assigns a 100-unit order to the idle station A-1, firing its idle
event and emptying the pool, although the resulting current load 100 is
far above the default workload norm of 10. -/
theorem C3_witness :
    continuous_release "FCFS" 0 0
        { order_list := [], station_list := [sampleWs "Z-1" "Z" 0 []] } "Z-1"
      = some { order_list := [], station_list := [sampleWs "Z-1" "Z" 0 []] } ∧
    continuous_release "FCFS" 0 0
        { order_list := [Order.init "O-1" 0 10 1 []],
          station_list := [sampleWs "Z-1" "Z" 0 []] } "Z-1"
      = some { order_list := [Order.init "O-1" 0 10 1 []],
               station_list := [sampleWs "Z-1" "Z" 0 []] } ∧
    ((continuous_release "FCFS" 0 0
        { order_list := [Order.init "O-1" 0 10 0
            [sampleTask "T1" 100 "A" none none 1 []]],
          station_list := [sampleWs "A-1" "A" 0 []] } "A-1").map
      (fun s => (s.order_list.length,
        (findStation s.station_list "A-1").map
          (fun w => (w.idle_event_triggered, w.current_load)))))
      = some (0, some (true, 100)) ∧
    (10 : ℚ) < 100 := by
  refine ⟨?_, ?_, ?_, by norm_num⟩
  · exact (C3_continuous_release "FCFS" 0 0
      { order_list := [], station_list := [sampleWs "Z-1" "Z" 0 []] } "Z-1"
      (sampleWs "Z-1" "Z" 0 [])
      (by simp [findStation, sampleWs])).1 rfl
  · have h := (C3_continuous_release "FCFS" 0 0
      { order_list := [Order.init "O-1" 0 10 1 []],
        station_list := [sampleWs "Z-1" "Z" 0 []] } "Z-1"
      (sampleWs "Z-1" "Z" 0 [])
      (by simp [findStation, sampleWs])).2.2.1
      (by simp)
      (by
        intro o ho
        rw [List.mem_singleton] at ho
        subst ho
        simp [orderHasReadyFor, get_next_ready_tasks, Order.init,
          initialize_tasks, flattenTasks])
    rw [h.1]
    simp [sort_orders, List.insertionSort, List.orderedInsert]
  · norm_num [continuous_release, findStation, sampleWs, sampleTask,
      sort_orders, List.insertionSort, List.orderedInsert, keyLe,
      fcfsOrderKey, orderHasReadyFor, get_next_ready_tasks, Order.init,
      initialize_tasks, flattenTasks, Order.flat_plan, Task.data,
      Task.station, Task.depth, Task.assigned_station, Task.task_name,
      Task.process_time, Task.next_steps, Task.calculate_load,
      set_detailed_routing, assign_stations_forest, assign_stations,
      Order.compute_load_contributions, clcStep, dictInsert, dictGet?,
      release_order, Order.add_load_contribution, updateStation,
      dispatch_ready_tasks, Workstation.add_task,
      calculate_planned_start_time, calculate_most_time_consuming_branch,
      clipIndirect, tol, Workstation.current_load, Workstation.direct_load,
      List.find?, List.foldlM, List.eraseP, Task.parent_task,
      Task.produced_component, Task.planned_start_time]

end DAMFC
